import Mathlib

/-!
Verification of the super-download download-engine core against its
natural-language specification.  Each section embeds one component of the
C++ source as executable Lean definitions and proves (or refutes) the
spec's claims about it.

Conventions: C++ `int`/`int64_t` values are modelled as `Int` (no relevant
arithmetic here can overflow 64 bits for the input ranges involved);
functions that throw are modelled with `Except`/`Option`; wall-clock
instants are modelled as exact rationals.
-/

namespace SuperDownload

/-! ### Data model: `BlockInfo` (src/core/meta_file.h) -/

structure BlockInfo where
  block_id : Int
  range_start : Int
  range_end : Int
  downloaded : Int
  completed : Bool
deriving Repr, DecidableEq

/-! ### Block splitter (src/core/block_splitter.cpp, `splitBlocks`)

The C++ loop `for (i = 0; i < actual_blocks; ++i)` is embedded as
structural recursion on the number of remaining blocks; `i == actual_blocks - 1`
(the last iteration) corresponds to the remaining count being zero after the
current block. -/

def splitLoop (file_size block_size : Int) : Nat → Int → Int → List BlockInfo
  | 0, _, _ => []
  | k + 1, i, offset =>
    let this_size : Int := if k = 0 then file_size - offset else block_size
    { block_id := i
      range_start := offset
      range_end := offset + this_size - 1
      downloaded := 0
      completed := false } :: splitLoop file_size block_size k (i + 1) (offset + this_size)

def splitBlocks (file_size : Int) (num_blocks : Int) (supports_range : Bool) :
    Except String (List BlockInfo) :=
  if file_size ≤ 0 then
    .error "file_size must be > 0"
  else if num_blocks < 1 ∨ num_blocks > 32 then
    .error "num_blocks must be in [1, 32]"
  else if supports_range = false ∨ file_size < 2 * 1024 * 1024 then
    .ok [{ block_id := 0, range_start := 0, range_end := file_size - 1,
           downloaded := 0, completed := false }]
  else
    let actual_blocks : Int := min num_blocks file_size
    let block_size : Int := file_size / actual_blocks
    .ok (splitLoop file_size block_size actual_blocks.toNat 0 0)

/-- Adjacent output blocks touch: each block ends right before the next starts. -/
def contiguousBlocks (l : List BlockInfo) : Prop :=
  List.Chain' (fun a b => a.range_end + 1 = b.range_start) l

instance (l : List BlockInfo) : Decidable (contiguousBlocks l) := by
  unfold contiguousBlocks
  infer_instance

/-! Structural lemmas about `splitLoop`. -/

theorem splitLoop_length (fs bs : Int) :
    ∀ (k : Nat) (i off : Int), (splitLoop fs bs k i off).length = k := by
  intro k
  induction k with
  | zero => intro i off; simp [splitLoop]
  | succ n ih => intro i off; simp [splitLoop, ih]

theorem splitLoop_ids (fs bs : Int) :
    ∀ (k j : Nat) (i off : Int),
      ((splitLoop fs bs k i off)[j]?).map (fun b => b.block_id)
        = if j < k then some (i + (j : Int)) else none := by
  intro k
  induction k with
  | zero => intro j i off; simp [splitLoop]
  | succ n ih =>
    intro j i off
    match j with
    | 0 => simp [splitLoop]
    | m + 1 =>
      simp only [splitLoop, List.getElem?_cons_succ]
      rw [ih m (i + 1)]
      by_cases h : m < n
      · rw [if_pos h, if_pos (by omega)]
        congr 1
        push_cast
        ring
      · rw [if_neg h, if_neg (by omega)]

theorem splitLoop_init (fs bs : Int) :
    ∀ (k : Nat) (i off : Int), ∀ b ∈ splitLoop fs bs k i off,
      b.downloaded = 0 ∧ b.completed = false := by
  intro k
  induction k with
  | zero => intro i off b hb; simp [splitLoop] at hb
  | succ n ih =>
    intro i off b hb
    simp only [splitLoop, List.mem_cons] at hb
    rcases hb with h | h
    · subst h; exact ⟨rfl, rfl⟩
    · exact ih (i + 1) _ b h

theorem splitLoop_head_start (fs bs : Int) (k : Nat) (i off : Int) :
    (splitLoop fs bs (k + 1) i off).head?.map (fun b => b.range_start) = some off := by
  simp [splitLoop]

theorem splitLoop_last_end (fs bs : Int) :
    ∀ (k : Nat) (i off : Int),
      (splitLoop fs bs (k + 1) i off).getLast?.map (fun b => b.range_end)
        = some (fs - 1) := by
  intro k
  induction k with
  | zero =>
    intro i off
    show some (off + (fs - off) - 1) = some (fs - 1)
    congr 1
    ring
  | succ n ih =>
    intro i off
    obtain ⟨b2, t2, h2⟩ :
        ∃ b2 t2, splitLoop fs bs (n + 1) (i + 1) (off + bs) = b2 :: t2 :=
      ⟨_, _, rfl⟩
    rw [show splitLoop fs bs (n + 1 + 1) i off
          = { block_id := i, range_start := off, range_end := off + bs - 1,
              downloaded := 0, completed := false }
            :: splitLoop fs bs (n + 1) (i + 1) (off + bs) from by
        simp [splitLoop]]
    rw [h2, List.getLast?_cons_cons, ← h2]
    exact ih (i + 1) (off + bs)

theorem splitLoop_chain (fs bs : Int) :
    ∀ (k : Nat) (i off : Int), contiguousBlocks (splitLoop fs bs k i off) := by
  intro k
  induction k with
  | zero => intro i off; simp [splitLoop, contiguousBlocks]
  | succ n ih =>
    intro i off
    match n with
    | 0 => simp [splitLoop, contiguousBlocks]
    | m + 1 =>
      have hchain := ih (i + 1) (off + bs)
      unfold contiguousBlocks at hchain ⊢
      rw [show splitLoop fs bs (m + 1 + 1) i off
            = { block_id := i, range_start := off, range_end := off + bs - 1,
                downloaded := 0, completed := false }
              :: splitLoop fs bs (m + 1) (i + 1) (off + bs) from by
          simp [splitLoop]]
      rw [List.chain'_cons']
      refine ⟨?_, hchain⟩
      intro b hb
      have hh := splitLoop_head_start fs bs m (i + 1) (off + bs)
      rw [hb] at hh
      simp only [Option.map_some', Option.some.injEq] at hh
      show off + bs - 1 + 1 = b.range_start
      rw [hh]
      ring

/-- C2: evaluation of the splitter at the spec's boundary scenarios.
`splitBlocks(100, 4, true)` and `splitBlocks(103, 4, true)` both fall into the
`file_size < 2 MiB` branch of the source and return a single block covering the
whole file — not the 4 even blocks the spec (and the repository's own
`BlockSplitterTest.EvenSplit` / `RemainderGoesToLastBlock` tests) expect. -/
theorem splitBlocks_small_file_single_block :
    splitBlocks 100 4 true
        = .ok [{ block_id := 0, range_start := 0, range_end := 99,
                 downloaded := 0, completed := false }]
      ∧ splitBlocks 103 4 true
        = .ok [{ block_id := 0, range_start := 0, range_end := 102,
                 downloaded := 0, completed := false }] :=
  ⟨rfl, rfl⟩

/-- C3: for every input, `splitBlocks` rejects exactly `file_size ≤ 0`,
`num_blocks < 1` and `num_blocks > 32`; on success the blocks carry 0-based
consecutive ids, start with `downloaded = 0` and `completed = false`, are
contiguous, cover `[0, file_size − 1]` exactly, and the block count `k`
satisfies `1 ≤ k ≤ min num_blocks file_size`. -/
theorem splitBlocks_spec (fs nb : Int) (sr : Bool) :
    ((∃ e, splitBlocks fs nb sr = .error e) ↔ (fs ≤ 0 ∨ nb < 1 ∨ nb > 32))
      ∧ (∀ bs, splitBlocks fs nb sr = .ok bs →
          (∀ j : Nat, j < bs.length →
              (bs[j]?).map (fun b => b.block_id) = some (j : Int))
            ∧ (∀ b ∈ bs, b.downloaded = 0 ∧ b.completed = false)
            ∧ contiguousBlocks bs
            ∧ bs.head?.map (fun b => b.range_start) = some 0
            ∧ bs.getLast?.map (fun b => b.range_end) = some (fs - 1)
            ∧ 1 ≤ bs.length ∧ (bs.length : Int) ≤ min nb fs) := by
  by_cases h1 : fs ≤ 0
  · have herr : splitBlocks fs nb sr = .error "file_size must be > 0" := by
      rw [splitBlocks, if_pos h1]
    constructor
    · exact ⟨fun _ => Or.inl h1, fun _ => ⟨_, herr⟩⟩
    · intro bs hbs
      rw [splitBlocks, if_pos h1] at hbs
      exact (Except.noConfusion hbs)
  · by_cases h2 : nb < 1 ∨ nb > 32
    · have herr : splitBlocks fs nb sr = .error "num_blocks must be in [1, 32]" := by
        rw [splitBlocks, if_neg h1, if_pos h2]
      constructor
      · exact ⟨fun _ => Or.inr h2, fun _ => ⟨_, herr⟩⟩
      · intro bs hbs
        rw [splitBlocks, if_neg h1, if_pos h2] at hbs
        exact (Except.noConfusion hbs)
    · have hfs : 1 ≤ fs := by omega
      have hnb : 1 ≤ nb ∧ nb ≤ 32 := by omega
      have hmin : 1 ≤ min nb fs := le_min hnb.1 hfs
      by_cases h3 : sr = false ∨ fs < 2 * 1024 * 1024
      · constructor
        · constructor
          · rintro ⟨e, he⟩
            rw [splitBlocks, if_neg h1, if_neg h2, if_pos h3] at he
            exact (Except.noConfusion he)
          · intro hcase
            exfalso
            omega
        · intro bs hbs
          rw [splitBlocks, if_neg h1, if_neg h2, if_pos h3] at hbs
          have hbs' : bs = [{ block_id := 0, range_start := 0, range_end := fs - 1,
                              downloaded := 0, completed := false }] := by
            cases hbs
            rfl
          subst hbs'
          refine ⟨?_, ?_, ?_, ?_, ?_, ?_, ?_⟩
          · intro j hj
            have hj0 : j = 0 := by simpa using hj
            subst hj0
            simp
          · intro b hb
            simp only [List.mem_singleton] at hb
            subst hb
            exact ⟨rfl, rfl⟩
          · simp [contiguousBlocks]
          · simp
          · simp
          · simp
          · simpa using hmin
      · -- even-split branch
        set actual : Int := min nb fs with hactual
        set bsz : Int := fs / actual with hbsz
        have hok : splitBlocks fs nb sr = .ok (splitLoop fs bsz actual.toNat 0 0) := by
          rw [splitBlocks, if_neg h1, if_neg h2, if_neg h3]
        have hk : (actual.toNat : Int) = actual := Int.toNat_of_nonneg (by omega)
        have hk1 : 1 ≤ actual.toNat := by omega
        obtain ⟨m, hm⟩ : ∃ m, actual.toNat = m + 1 :=
          ⟨actual.toNat - 1, by omega⟩
        constructor
        · constructor
          · rintro ⟨e, he⟩
            rw [hok] at he
            exact (Except.noConfusion he)
          · intro hcase
            exfalso
            omega
        · intro bs hbs
          rw [hok] at hbs
          have hbs' : bs = splitLoop fs bsz actual.toNat 0 0 := by
            cases hbs
            rfl
          subst hbs'
          have hlen : (splitLoop fs bsz actual.toNat 0 0).length = actual.toNat :=
            splitLoop_length fs bsz actual.toNat 0 0
          refine ⟨?_, ?_, ?_, ?_, ?_, ?_, ?_⟩
          · intro j hj
            have := splitLoop_ids fs bsz actual.toNat j 0 0
            rw [hlen] at hj
            rw [this, if_pos hj]
            simp
          · exact splitLoop_init fs bsz actual.toNat 0 0
          · exact splitLoop_chain fs bsz actual.toNat 0 0
          · rw [hm]
            exact (by simpa using splitLoop_head_start fs bsz m 0 0)
          · rw [hm]
            exact splitLoop_last_end fs bsz m 0 0
          · omega
          · rw [hlen]
            omega

/-- Closed instance of `splitBlocks_spec`: the binder-free conjuncts at the
concrete input `splitBlocks 2097153 4 true` (a 2 MiB + 1 file in 4 blocks). -/
theorem splitBlocks_spec_witness :
    contiguousBlocks
        [{ block_id := 0, range_start := 0, range_end := 524287,
           downloaded := 0, completed := false },
         { block_id := 1, range_start := 524288, range_end := 1048575,
           downloaded := 0, completed := false },
         { block_id := 2, range_start := 1048576, range_end := 1572863,
           downloaded := 0, completed := false },
         { block_id := 3, range_start := 1572864, range_end := 2097152,
           downloaded := 0, completed := false }]
      ∧ ([{ block_id := 0, range_start := 0, range_end := 524287,
            downloaded := 0, completed := false },
          { block_id := 1, range_start := 524288, range_end := 1048575,
            downloaded := 0, completed := false },
          { block_id := 2, range_start := 1048576, range_end := 1572863,
            downloaded := 0, completed := false },
          { block_id := 3, range_start := 1572864, range_end := 2097152,
            downloaded := 0, completed := false }] : List BlockInfo).getLast?.map
          (fun b => b.range_end) = some (2097153 - 1) := by
  have h := (splitBlocks_spec 2097153 4 true).2
    [{ block_id := 0, range_start := 0, range_end := 524287,
       downloaded := 0, completed := false },
     { block_id := 1, range_start := 524288, range_end := 1048575,
       downloaded := 0, completed := false },
     { block_id := 2, range_start := 1048576, range_end := 1572863,
       downloaded := 0, completed := false },
     { block_id := 3, range_start := 1572864, range_end := 2097152,
       downloaded := 0, completed := false }] rfl
  exact ⟨h.2.2.1, h.2.2.2.2.1⟩

/-! ### Task state machine (src/core/task.cpp)

`TaskState` and the state effect of each public `Task` operation.  `start`,
`pause` and `resume` are guarded compare-exchanges on the atomic state;
`cancel` stores `Cancelled` unconditionally; a block-progress callback is
ignored in `Cancelled` and otherwise runs `checkCompletion` when every block
is complete and the task is still `Downloading` (`Completed` on a size match,
`Failed` on a mismatch).  The completion check's inputs (all blocks done,
on-disk size correct) are the operation's parameters. -/

inductive TaskState where
  | Queued
  | Downloading
  | Paused
  | Completed
  | Failed
  | Cancelled
deriving Repr, DecidableEq

inductive TaskOp where
  | start
  | pause
  | resume
  | cancel
  | blockProgress (all_done : Bool) (size_ok : Bool)
deriving Repr, DecidableEq

def taskStep : TaskOp → TaskState → TaskState
  | .start, s => if s = .Queued then .Downloading else s
  | .pause, s => if s = .Downloading then .Paused else s
  | .resume, s =>
      if s = .Paused then .Downloading
      else if s = .Failed then .Downloading
      else s
  | .cancel, _ => .Cancelled
  | .blockProgress all_done size_ok, s =>
      if s = .Cancelled then s
      else if all_done = true ∧ s = .Downloading then
        if size_ok then .Completed else .Failed
      else s

def runTask (ops : List TaskOp) (s : TaskState) : TaskState :=
  ops.foldl (fun t op => taskStep op t) s

theorem taskStep_cancelled (op : TaskOp) : taskStep op .Cancelled = .Cancelled := by
  cases op <;> simp [taskStep]

theorem taskStep_completed (op : TaskOp) (hop : op ≠ .cancel) :
    taskStep op .Completed = .Completed := by
  cases op <;> simp_all [taskStep]

/-- C4 counterexample: `Task::cancel()` stores `Cancelled` unconditionally, so
it moves a task out of the terminal state `Completed` — the claim that no
operation changes a terminal state is false at this input. -/
theorem task_cancel_escapes_completed :
    runTask [TaskOp.cancel] TaskState.Completed = TaskState.Cancelled
      ∧ TaskState.Cancelled ≠ TaskState.Completed := by
  exact ⟨rfl, by decide⟩

/-- C4 amended: `Cancelled` is absorbing under every operation, and
`Completed` is absorbing under every operation except `cancel` (which moves it
to `Cancelled`). -/
theorem task_terminal_absorbing (ops : List TaskOp) :
    (∀ s, s = TaskState.Cancelled → runTask ops s = TaskState.Cancelled)
      ∧ (∀ s, s = TaskState.Completed → (∀ op ∈ ops, op ≠ TaskOp.cancel) →
          runTask ops s = TaskState.Completed) := by
  induction ops with
  | nil => exact ⟨fun s hs => hs, fun s hs _ => hs⟩
  | cons op rest ih =>
    constructor
    · intro s hs
      subst hs
      show runTask rest (taskStep op .Cancelled) = .Cancelled
      rw [taskStep_cancelled]
      exact ih.1 _ rfl
    · intro s hs hops
      subst hs
      show runTask rest (taskStep op .Completed) = .Completed
      rw [taskStep_completed op (hops op (List.mem_cons_self op rest))]
      exact ih.2 _ rfl (fun o ho => hops o (List.mem_cons_of_mem op ho))

/-- Closed instance of `task_terminal_absorbing` at concrete operation lists. -/
theorem task_terminal_absorbing_witness :
    runTask [TaskOp.pause, TaskOp.blockProgress true true, TaskOp.cancel]
        TaskState.Cancelled = TaskState.Cancelled
      ∧ runTask [TaskOp.start, TaskOp.resume, TaskOp.blockProgress true false]
        TaskState.Completed = TaskState.Completed :=
  ⟨(task_terminal_absorbing _).1 _ rfl,
   (task_terminal_absorbing _).2 _ rfl (by decide)⟩

/-! ### Task queue (src/core/task_queue.cpp)

The queue holds an ordered list of tasks, a clamped concurrency cap and an
`active_count`.  Each public operation is embedded directly from the source;
`tryStartNext` (called under the queue lock by the others) walks the list in
order, starting `Queued` tasks while `active_count < max_concurrent`.
Interleaved `Task` state transitions on queue members (`Task::pause` etc.,
which do not notify the queue — the `setState` calls in those operations
compare old and new state *after* the atomic store, so the state-change
callback never fires for them) are modelled by `TaskQueue.taskOp`. -/

structure QTask where
  id : Int
  state : TaskState
deriving Repr, DecidableEq

structure TaskQueue where
  tasks : List QTask
  max_concurrent : Int
  active_count : Int
  auto_start : Bool
deriving Repr, DecidableEq

def countDownloading (ts : List QTask) : Nat :=
  ts.countP (fun t => t.state == TaskState.Downloading)

def tryStartNextGo (maxC : Int) : List QTask → Int → List QTask × Int
  | [], active => ([], active)
  | t :: rest, active =>
    if maxC ≤ active then (t :: rest, active)
    else if t.state = .Queued then
      let p := tryStartNextGo maxC rest (active + 1)
      ({ t with state := .Downloading } :: p.1, p.2)
    else
      let p := tryStartNextGo maxC rest active
      (t :: p.1, p.2)

def TaskQueue.tryStartNext (q : TaskQueue) : TaskQueue :=
  if q.auto_start = false then q
  else
    let p := tryStartNextGo q.max_concurrent q.tasks q.active_count
    { q with tasks := p.1, active_count := p.2 }

def TaskQueue.addTask (q : TaskQueue) (t : QTask) : TaskQueue :=
  TaskQueue.tryStartNext { q with tasks := q.tasks ++ [t] }

def removeGo (id : Int) : List QTask → Option (List QTask × Bool)
  | [] => none
  | t :: rest =>
    if t.id = id then some (rest, t.state == TaskState.Downloading)
    else
      match removeGo id rest with
      | none => none
      | some p => some (t :: p.1, p.2)

def TaskQueue.removeTask (q : TaskQueue) (id : Int) : TaskQueue × Bool :=
  match removeGo id q.tasks with
  | none => (q, false)
  | some p =>
    (TaskQueue.tryStartNext
      { q with tasks := p.1,
               active_count := (if p.2 then q.active_count - 1 else q.active_count) },
     true)

def TaskQueue.onTaskFinished (q : TaskQueue) (id : Int) : TaskQueue :=
  if q.tasks.any (fun t => t.id == id) then
    TaskQueue.tryStartNext
      { q with active_count :=
          (if 0 < q.active_count then q.active_count - 1 else q.active_count) }
  else q

def clampInt (x lo hi : Int) : Int := max lo (min x hi)

def TaskQueue.setMaxConcurrent (q : TaskQueue) (m : Int) : TaskQueue :=
  TaskQueue.tryStartNext { q with max_concurrent := clampInt m 1 10 }

/-- Swap the elements at positions `n` and `n + 1` (identity when out of range). -/
def swapAdj : Nat → List QTask → List QTask
  | 0, t1 :: t2 :: rest => t2 :: t1 :: rest
  | n + 1, t :: rest => t :: swapAdj n rest
  | _, l => l

def TaskQueue.moveUp (q : TaskQueue) (id : Int) : TaskQueue × Bool :=
  match q.tasks.findIdx? (fun t => t.id == id) with
  | none => (q, false)
  | some 0 => (q, false)
  | some (i + 1) => ({ q with tasks := swapAdj i q.tasks }, true)

def TaskQueue.moveDown (q : TaskQueue) (id : Int) : TaskQueue × Bool :=
  match q.tasks.findIdx? (fun t => t.id == id) with
  | none => (q, false)
  | some i =>
    if i + 1 = q.tasks.length then (q, false)
    else ({ q with tasks := swapAdj i q.tasks }, true)

/-- Apply `f` to the first list element satisfying `p` (the C++ side looks
tasks up with `find_if` and then operates on that single task object). -/
def applyFirst (p : QTask → Bool) (f : QTask → QTask) : List QTask → List QTask
  | [] => []
  | t :: rest => if p t then f t :: rest else t :: applyFirst p f rest

/-- A `Task` state transition performed directly on a queue member, without
any queue bookkeeping (this is what `Task::pause` / `resume` / `cancel` /
`start` do: they touch only the task's own atomic state). -/
def TaskQueue.taskOp (q : TaskQueue) (id : Int) (op : TaskOp) : TaskQueue :=
  { q with tasks := (applyFirst (fun t => t.id == id)
      (fun t => { t with state := taskStep op t.state }) q.tasks) }

/-- A task currently `Downloading` finishes (`Completed` when `ok`, `Failed`
otherwise); its `setState` fires the manager callback, which calls
`TaskQueue::onTaskFinished`.  These completions are the only transitions whose
callback actually fires in the source. -/
def TaskQueue.finishTask (q : TaskQueue) (id : Int) (ok : Bool) : TaskQueue :=
  if q.tasks.any (fun t => t.id == id && t.state == TaskState.Downloading) then
    TaskQueue.onTaskFinished
      { q with tasks := (applyFirst
          (fun t => t.id == id && t.state == TaskState.Downloading)
          (fun t => { t with state := if ok then .Completed else .Failed })
          q.tasks) }
      id
  else q

inductive QueueEvent where
  | add (t : QTask)
  | remove (id : Int)
  | finished (id : Int)
  | setMax (m : Int)
  | tryStart
  | taskOp (id : Int) (op : TaskOp)
  | finish (id : Int) (ok : Bool)
deriving Repr, DecidableEq

def queueStep (q : TaskQueue) : QueueEvent → TaskQueue
  | .add t => q.addTask t
  | .remove id => (q.removeTask id).1
  | .finished id => q.onTaskFinished id
  | .setMax m => q.setMaxConcurrent m
  | .tryStart => q.tryStartNext
  | .taskOp id op => q.taskOp id op
  | .finish id ok => q.finishTask id ok

def runQueue (q : TaskQueue) (evs : List QueueEvent) : TaskQueue :=
  evs.foldl queueStep q

/-- The invariant claimed by the spec: `active_count` equals the number of
queue members whose state is `Downloading`. -/
def queueInv (q : TaskQueue) : Prop :=
  q.active_count = (countDownloading q.tasks : Int)

instance (q : TaskQueue) : Decidable (queueInv q) := by
  unfold queueInv
  infer_instance

theorem countDownloading_cons (t : QTask) (ts : List QTask) :
    countDownloading (t :: ts)
      = countDownloading ts + (if t.state = TaskState.Downloading then 1 else 0) := by
  simp [countDownloading, List.countP_cons]

theorem tryStartNextGo_count (maxC : Int) :
    ∀ (ts : List QTask) (active : Int),
      (countDownloading (tryStartNextGo maxC ts active).1 : Int) + active
        = (countDownloading ts : Int) + (tryStartNextGo maxC ts active).2 := by
  intro ts
  induction ts with
  | nil => intro active; simp [tryStartNextGo]
  | cons t rest ih =>
    intro active
    by_cases hge : maxC ≤ active
    · simp [tryStartNextGo, hge]
    · by_cases hq : t.state = .Queued
      · have hrec := ih (active + 1)
        simp only [tryStartNextGo, if_neg hge, if_pos hq]
        rw [countDownloading_cons, countDownloading_cons]
        simp only [hq]
        push_cast at hrec ⊢
        omega
      · have hrec := ih active
        simp only [tryStartNextGo, if_neg hge, if_neg hq]
        rw [countDownloading_cons, countDownloading_cons]
        push_cast at hrec ⊢
        omega

theorem tryStartNext_inv (q : TaskQueue) (h : queueInv q) :
    queueInv q.tryStartNext := by
  unfold TaskQueue.tryStartNext
  by_cases ha : q.auto_start = false
  · rw [if_pos ha]; exact h
  · rw [if_neg ha]
    have hgo := tryStartNextGo_count q.max_concurrent q.tasks q.active_count
    unfold queueInv at h ⊢
    simp only at h hgo ⊢
    omega

theorem countDownloading_append (ts us : List QTask) :
    countDownloading (ts ++ us) = countDownloading ts + countDownloading us := by
  simp [countDownloading, List.countP_append]

theorem addTask_inv (q : TaskQueue) (t : QTask)
    (ht : t.state ≠ TaskState.Downloading) (h : queueInv q) :
    queueInv (q.addTask t) := by
  unfold TaskQueue.addTask
  apply tryStartNext_inv
  unfold queueInv at h ⊢
  have hb : (t.state == TaskState.Downloading) = false := by simpa using ht
  have h1 : countDownloading [t] = 0 := by simp [countDownloading, hb]
  simp only [countDownloading_append, h1] at h ⊢
  omega

theorem removeGo_count (id : Int) :
    ∀ (ts : List QTask) (p : List QTask × Bool), removeGo id ts = some p →
      (countDownloading ts : Int)
        = (countDownloading p.1 : Int) + (if p.2 then 1 else 0) := by
  intro ts
  induction ts with
  | nil => intro p hp; exact (Option.noConfusion hp)
  | cons t rest ih =>
    intro p hp
    by_cases hid : t.id = id
    · rw [removeGo, if_pos hid] at hp
      cases hp
      rw [countDownloading_cons]
      by_cases hd : t.state = TaskState.Downloading
      · simp only [hd]
        push_cast
        simp
      · simp only [if_neg hd]
        have : (t.state == TaskState.Downloading) = false := by
          simpa using hd
        rw [this]
        push_cast
        simp
    · rw [removeGo, if_neg hid] at hp
      cases hrec : removeGo id rest with
      | none => rw [hrec] at hp; exact (Option.noConfusion hp)
      | some pr =>
        rw [hrec] at hp
        cases hp
        have hr := ih pr hrec
        rw [countDownloading_cons, countDownloading_cons]
        push_cast at hr ⊢
        omega

theorem removeTask_inv (q : TaskQueue) (id : Int) (h : queueInv q) :
    queueInv (q.removeTask id).1 := by
  unfold TaskQueue.removeTask
  cases hrm : removeGo id q.tasks with
  | none => exact h
  | some p =>
    simp only
    apply tryStartNext_inv
    have hc := removeGo_count id q.tasks p hrm
    unfold queueInv at h ⊢
    simp only at h hc ⊢
    by_cases hp2 : p.2 = true <;> simp [hp2] at hc ⊢ <;> omega

theorem setMax_inv (q : TaskQueue) (m : Int) (h : queueInv q) :
    queueInv (q.setMaxConcurrent m) := by
  unfold TaskQueue.setMaxConcurrent
  exact tryStartNext_inv _ h

theorem applyFirst_finish_count (id : Int) (ok : Bool) :
    ∀ ts : List QTask,
      ts.any (fun t => t.id == id && t.state == TaskState.Downloading) = true →
      (countDownloading ts : Int)
        = (countDownloading (applyFirst
            (fun t => t.id == id && t.state == TaskState.Downloading)
            (fun t => { t with state := if ok then .Completed else .Failed })
            ts) : Int) + 1 := by
  intro ts
  induction ts with
  | nil => intro hany; simp at hany
  | cons t rest ih =>
    intro hany
    by_cases hmatch : (t.id == id && t.state == TaskState.Downloading) = true
    · rw [applyFirst, if_pos hmatch]
      have hd : t.state = TaskState.Downloading := by
        have := (Bool.and_eq_true _ _).mp hmatch
        simpa using this.2
      rw [countDownloading_cons, countDownloading_cons]
      simp only [hd, if_pos rfl]
      have hnew : (if ok then TaskState.Completed else TaskState.Failed)
          ≠ TaskState.Downloading := by
        cases ok <;> simp
      simp only [hnew, if_neg]
      push_cast
      omega
    · rw [applyFirst, if_neg hmatch]
      have hany' : rest.any (fun t => t.id == id && t.state == TaskState.Downloading)
          = true := by
        simp only [List.any_cons, Bool.or_eq_true] at hany
        rcases hany with h | h
        · exact absurd h hmatch
        · exact h
      have hr := ih hany'
      rw [countDownloading_cons, countDownloading_cons]
      push_cast at hr ⊢
      omega

theorem applyFirst_any_id (id : Int) (ok : Bool) :
    ∀ ts : List QTask,
      ts.any (fun t => t.id == id && t.state == TaskState.Downloading) = true →
      (applyFirst (fun t => t.id == id && t.state == TaskState.Downloading)
          (fun t => { t with state := if ok then .Completed else .Failed })
          ts).any (fun t => t.id == id) = true := by
  intro ts
  induction ts with
  | nil => intro hany; simp at hany
  | cons t rest ih =>
    intro hany
    by_cases hmatch : (t.id == id && t.state == TaskState.Downloading) = true
    · rw [applyFirst, if_pos hmatch]
      have := (Bool.and_eq_true _ _).mp hmatch
      simp [this.1]
    · rw [applyFirst, if_neg hmatch]
      have hany' : rest.any (fun t => t.id == id && t.state == TaskState.Downloading)
          = true := by
        simp only [List.any_cons, Bool.or_eq_true] at hany
        rcases hany with h | h
        · exact absurd h hmatch
        · exact h
      simp [ih hany']

theorem finishTask_inv (q : TaskQueue) (id : Int) (ok : Bool) (h : queueInv q) :
    queueInv (q.finishTask id ok) := by
  unfold TaskQueue.finishTask
  by_cases hany : q.tasks.any (fun t => t.id == id && t.state == TaskState.Downloading)
      = true
  · rw [if_pos hany]
    have hc := applyFirst_finish_count id ok q.tasks hany
    have hid := applyFirst_any_id id ok q.tasks hany
    unfold TaskQueue.onTaskFinished
    simp only [hid, if_pos]
    apply tryStartNext_inv
    unfold queueInv at h ⊢
    simp only at h hc ⊢
    omega
  · rw [if_neg hany]
    exact h

/-- Events under which the queue's bookkeeping is actually exercised as the
integrated system exercises it: queue operations, plus task completions that
notify the queue.  Bare `onTaskFinished` calls and direct task transitions
(`pause`, `resume`, `cancel`, `start`) are excluded — they are the operations
that break the invariant. -/
def safeEvent : QueueEvent → Prop
  | .add t => t.state ≠ TaskState.Downloading
  | .remove _ => True
  | .finished _ => False
  | .setMax _ => True
  | .tryStart => True
  | .taskOp _ _ => False
  | .finish _ _ => True

instance : DecidablePred safeEvent := fun e => by
  cases e <;> unfold safeEvent <;> infer_instance

/-- C1 counterexample: starting from an empty queue (cap 3, auto-start on),
adding one queued task starts it (`active_count = 1`, one task `Downloading`),
and the invariant holds; a subsequent `Task::pause` moves the task to `Paused`
without notifying the queue, leaving `active_count = 1` while no task is
`Downloading` — the claimed invariant is false at that point. -/
theorem queue_pause_breaks_active_count :
    queueInv (runQueue ⟨[], 3, 0, true⟩ [QueueEvent.add ⟨1, TaskState.Queued⟩])
      ∧ ¬ queueInv (runQueue ⟨[], 3, 0, true⟩
          [QueueEvent.add ⟨1, TaskState.Queued⟩, QueueEvent.taskOp 1 TaskOp.pause]) := by
  decide

/-- C1 amended: `active_count` equals the number of `Downloading` tasks at
every point of any sequence of queue operations (`addTask` of a task that is
not already `Downloading`, `removeTask`, `setMaxConcurrent`, `tryStartNext`)
interleaved with task completions that notify the queue
(`finishTask` = terminal transition of a `Downloading` task followed by
`onTaskFinished`); direct `pause`/`resume`/`cancel` transitions and bare
`onTaskFinished` calls are excluded, as they falsify the equality. -/
theorem queue_active_count_invariant (q : TaskQueue) (evs : List QueueEvent)
    (hq : queueInv q) (hsafe : ∀ e ∈ evs, safeEvent e) :
    queueInv (runQueue q evs) := by
  induction evs generalizing q with
  | nil => exact hq
  | cons e rest ih =>
    have hstep : queueInv (queueStep q e) := by
      have he := hsafe e (List.mem_cons_self e rest)
      cases e with
      | add t => exact addTask_inv q t he hq
      | remove id => exact removeTask_inv q id hq
      | finished id => exact he.elim
      | setMax m => exact setMax_inv q m hq
      | tryStart => exact tryStartNext_inv q hq
      | taskOp id op => exact he.elim
      | finish id ok => exact finishTask_inv q id ok hq
    exact ih (queueStep q e) hstep (fun e' he' => hsafe e' (List.mem_cons_of_mem e he'))

/-- Closed instance of `queue_active_count_invariant` on a concrete run. -/
theorem queue_active_count_invariant_witness :
    queueInv (runQueue ⟨[], 2, 0, true⟩
      [QueueEvent.add ⟨1, TaskState.Queued⟩, QueueEvent.add ⟨2, TaskState.Queued⟩,
       QueueEvent.add ⟨3, TaskState.Queued⟩, QueueEvent.finish 1 true,
       QueueEvent.remove 2, QueueEvent.setMax 1, QueueEvent.tryStart]) :=
  queue_active_count_invariant _ _ (by decide) (by decide)

theorem swapAdj_perm : ∀ (n : Nat) (l : List QTask), (swapAdj n l).Perm l := by
  intro n
  induction n with
  | zero =>
    intro l
    match l with
    | [] => exact List.Perm.refl _
    | [t] => exact List.Perm.refl _
    | t1 :: t2 :: rest => exact List.Perm.swap t1 t2 rest
  | succ n ih =>
    intro l
    match l with
    | [] => exact List.Perm.refl _
    | t :: rest => exact List.Perm.cons t (ih rest)

/-- C10: `moveUp`/`moveDown` swap the identified task with its neighbour and
return `true`, or return `false` when the id is absent or the move targets an
endpoint; in every case the multiset of tasks (hence every task's state),
`active_count` and the concurrency cap are unchanged. -/
theorem queue_move_spec (q : TaskQueue) (id : Int) :
    ((q.tasks.findIdx? (fun t => t.id == id) = none → q.moveUp id = (q, false))
      ∧ (q.tasks.findIdx? (fun t => t.id == id) = some 0 → q.moveUp id = (q, false))
      ∧ (∀ i, q.tasks.findIdx? (fun t => t.id == id) = some (i + 1) →
          q.moveUp id = ({ q with tasks := swapAdj i q.tasks }, true))
      ∧ (q.moveUp id).1.tasks.Perm q.tasks
      ∧ (q.moveUp id).1.active_count = q.active_count
      ∧ (q.moveUp id).1.max_concurrent = q.max_concurrent)
    ∧ ((q.tasks.findIdx? (fun t => t.id == id) = none → q.moveDown id = (q, false))
      ∧ (∀ i, q.tasks.findIdx? (fun t => t.id == id) = some i →
          i + 1 = q.tasks.length → q.moveDown id = (q, false))
      ∧ (∀ i, q.tasks.findIdx? (fun t => t.id == id) = some i →
          i + 1 ≠ q.tasks.length →
          q.moveDown id = ({ q with tasks := swapAdj i q.tasks }, true))
      ∧ (q.moveDown id).1.tasks.Perm q.tasks
      ∧ (q.moveDown id).1.active_count = q.active_count
      ∧ (q.moveDown id).1.max_concurrent = q.max_concurrent) := by
  constructor
  · cases hidx : q.tasks.findIdx? (fun t => t.id == id) with
    | none =>
      have hval : q.moveUp id = (q, false) := by
        unfold TaskQueue.moveUp
        rw [hidx]
      refine ⟨fun _ => hval, ?_, ?_, ?_, ?_, ?_⟩
      · intro h0; exact (Option.noConfusion h0)
      · intro i hi; exact (Option.noConfusion hi)
      · rw [hval]
      · rw [hval]
      · rw [hval]
    | some i =>
      cases i with
      | zero =>
        have hval : q.moveUp id = (q, false) := by
          unfold TaskQueue.moveUp
          rw [hidx]
        refine ⟨?_, fun _ => hval, ?_, ?_, ?_, ?_⟩
        · intro h0; exact (Option.noConfusion h0)
        · intro j hj
          have hj' : 0 = j + 1 := Option.some.inj hj
          exact absurd hj' (by omega)
        · rw [hval]
        · rw [hval]
        · rw [hval]
      | succ i =>
        have hval : q.moveUp id = ({ q with tasks := swapAdj i q.tasks }, true) := by
          unfold TaskQueue.moveUp
          rw [hidx]
        refine ⟨?_, ?_, ?_, ?_, ?_, ?_⟩
        · intro h0; exact (Option.noConfusion h0)
        · intro h0
          have h0' : i + 1 = 0 := Option.some.inj h0
          exact absurd h0' (by omega)
        · intro j hj
          have hj' : i + 1 = j + 1 := Option.some.inj hj
          have hji : j = i := by omega
          subst hji
          exact hval
        · rw [hval]; exact swapAdj_perm i q.tasks
        · rw [hval]
        · rw [hval]
  · cases hidx : q.tasks.findIdx? (fun t => t.id == id) with
    | none =>
      have hval : q.moveDown id = (q, false) := by
        unfold TaskQueue.moveDown
        rw [hidx]
      refine ⟨fun _ => hval, ?_, ?_, ?_, ?_, ?_⟩
      · intro i hi; exact (Option.noConfusion hi)
      · intro i hi; exact (Option.noConfusion hi)
      · rw [hval]
      · rw [hval]
      · rw [hval]
    | some i =>
      by_cases hend : i + 1 = q.tasks.length
      · have hval : q.moveDown id = (q, false) := by
          unfold TaskQueue.moveDown
          simp only [hidx]
          rw [if_pos hend]
        refine ⟨?_, ?_, ?_, ?_, ?_, ?_⟩
        · intro h0; exact (Option.noConfusion h0)
        · intro j hj _
          have hji : j = i := by
            have := Option.some.inj hj
            omega
          subst hji
          exact hval
        · intro j hj hne
          have hji : j = i := by
            have := Option.some.inj hj
            omega
          subst hji
          exact absurd hend hne
        · rw [hval]
        · rw [hval]
        · rw [hval]
      · have hval : q.moveDown id = ({ q with tasks := swapAdj i q.tasks }, true) := by
          unfold TaskQueue.moveDown
          simp only [hidx]
          rw [if_neg hend]
        refine ⟨?_, ?_, ?_, ?_, ?_, ?_⟩
        · intro h0; exact (Option.noConfusion h0)
        · intro j hj hlen
          have hji : j = i := by
            have := Option.some.inj hj
            omega
          subst hji
          exact absurd hlen hend
        · intro j hj _
          have hji : j = i := by
            have := Option.some.inj hj
            omega
          subst hji
          exact hval
        · rw [hval]; exact swapAdj_perm i q.tasks
        · rw [hval]
        · rw [hval]

/-- Closed instance of `queue_move_spec`: on the queue `[task 1, task 2]`,
`moveUp 2` swaps and succeeds, `moveDown 2` targets the last element and
fails. -/
theorem queue_move_spec_witness :
    TaskQueue.moveUp ⟨[⟨1, TaskState.Queued⟩, ⟨2, TaskState.Paused⟩], 3, 0, false⟩ 2
        = (⟨[⟨2, TaskState.Paused⟩, ⟨1, TaskState.Queued⟩], 3, 0, false⟩, true)
      ∧ TaskQueue.moveDown ⟨[⟨1, TaskState.Queued⟩, ⟨2, TaskState.Paused⟩], 3, 0, false⟩ 2
        = (⟨[⟨1, TaskState.Queued⟩, ⟨2, TaskState.Paused⟩], 3, 0, false⟩, false) := by
  have h := queue_move_spec ⟨[⟨1, TaskState.Queued⟩, ⟨2, TaskState.Paused⟩], 3, 0, false⟩ 2
  constructor
  · have hv := h.1.2.2.1 0 (by decide)
    rw [hv]
    rfl
  · have hv := h.2.2.1 1 (by decide) (by decide)
    rw [hv]

/-! ### Progress monitor (progress_monitor.cpp)

Wall-clock instants are exact rationals; `static_cast<int>` on the computed
real value is truncation toward zero, modelled by `ratTruncToInt` (all the
arithmetic in the claims below is exact at the inputs considered, so the
rational model coincides with the C++ `double` computation there).
`snapshot` also trims the sample deque in place, so it returns the updated
monitor alongside the `ProgressInfo`. -/

/-- C++ `static_cast<int>` / `static_cast<int64_t>` applied to a real value:
truncation toward zero (`Int` division in Lean rounds toward zero). -/
def ratTruncToInt (q : ℚ) : Int := q.num / (q.den : Int)

structure Sample where
  time : ℚ
  bytes : Int
deriving Repr, DecidableEq

structure ProgressMonitor where
  total_bytes : Int
  downloaded_bytes : Int
  samples : List Sample
deriving Repr, DecidableEq

structure ProgressInfo where
  total_bytes : Int
  downloaded_bytes : Int
  speed_bytes_per_sec : ℚ
  progress_percent : ℚ
  remaining_seconds : Int
deriving Repr, DecidableEq

def WINDOW_SIZE_SEC : ℚ := 5

def ProgressMonitor.addBytes (m : ProgressMonitor) (now : ℚ) (bytes : Int) :
    ProgressMonitor :=
  if bytes ≤ 0 then m
  else
    { m with downloaded_bytes := m.downloaded_bytes + bytes,
             samples := m.samples ++ [⟨now, m.downloaded_bytes + bytes⟩] }

/-- The sliding-window speed computed by `snapshot` after trimming: `0` unless
at least two samples remain and time elapsed between the oldest and newest is
positive. -/
def snapshotSpeed (m : ProgressMonitor) (now : ℚ) : ℚ :=
  let cutoff := now - WINDOW_SIZE_SEC
  match m.samples.dropWhile (fun s => decide (s.time < cutoff)) with
  | [] => 0
  | [_] => 0
  | s0 :: s1 :: rest =>
    let sn := (s1 :: rest).getLastD s1
    let elapsed := sn.time - s0.time
    if 0 < elapsed then ((sn.bytes - s0.bytes : Int) : ℚ) / elapsed else 0

def ProgressMonitor.snapshot (m : ProgressMonitor) (now : ℚ) :
    ProgressInfo × ProgressMonitor :=
  let percent : ℚ :=
    if 0 < m.total_bytes then
      (m.downloaded_bytes : ℚ) / (m.total_bytes : ℚ) * 100
    else 0
  let speed := snapshotSpeed m now
  let remaining : Int :=
    if 0 < speed then
      ratTruncToInt (((m.total_bytes - m.downloaded_bytes : Int) : ℚ) / speed)
    else -1
  ({ total_bytes := m.total_bytes, downloaded_bytes := m.downloaded_bytes,
     speed_bytes_per_sec := speed, progress_percent := percent,
     remaining_seconds := remaining },
   { m with samples :=
      m.samples.dropWhile (fun s => decide (s.time < now - WINDOW_SIZE_SEC)) })

/-- C8 counterexample: an unknown total size (`total_bytes = 0`, as a `Task`
with unknown `file_size` constructs its monitor) with two samples giving
speed 1000 B/s yields `remaining_seconds = -2`, not the `-1` the claim
requires whenever the total size is unknown. -/
theorem ratTruncToInt_intCast (z : Int) : ratTruncToInt (z : ℚ) = z := by
  unfold ratTruncToInt
  rw [Rat.num_intCast, Rat.den_intCast]
  simp

theorem snapshot_unknown_total_negative_eta :
    ((((ProgressMonitor.mk 0 0 []).addBytes 0 1000).addBytes 1 1000).snapshot 1).1.total_bytes
        = 0
      ∧ ((((ProgressMonitor.mk 0 0 []).addBytes 0 1000).addBytes 1 1000).snapshot 1).1.speed_bytes_per_sec
        = 1000
      ∧ ((((ProgressMonitor.mk 0 0 []).addBytes 0 1000).addBytes 1 1000).snapshot 1).1.remaining_seconds
        = -2 := by
  have hm : (((ProgressMonitor.mk 0 0 []).addBytes 0 1000).addBytes 1 1000)
      = ProgressMonitor.mk 0 2000 [⟨0, 1000⟩, ⟨1, 2000⟩] := by
    norm_num [ProgressMonitor.addBytes]
  have h1 : (decide ((0 : ℚ) < 1 - WINDOW_SIZE_SEC)) = false := by
    rw [decide_eq_false_iff_not]
    norm_num [WINDOW_SIZE_SEC]
  have hsp : snapshotSpeed (ProgressMonitor.mk 0 2000 [⟨0, 1000⟩, ⟨1, 2000⟩]) 1
      = 1000 := by
    unfold snapshotSpeed
    simp only [List.dropWhile, List.getLastD, h1]
    norm_num
  have hrem : ((ProgressMonitor.mk 0 2000 [⟨0, 1000⟩, ⟨1, 2000⟩]).snapshot 1).1.remaining_seconds
      = (if 0 < snapshotSpeed (ProgressMonitor.mk 0 2000 [⟨0, 1000⟩, ⟨1, 2000⟩]) 1 then
          ratTruncToInt (((0 - 2000 : Int) : ℚ)
            / snapshotSpeed (ProgressMonitor.mk 0 2000 [⟨0, 1000⟩, ⟨1, 2000⟩]) 1)
        else -1) := rfl
  rw [hm]
  refine ⟨rfl, hsp, ?_⟩
  rw [hrem, hsp, if_pos (by norm_num)]
  have hq : (((0 - 2000 : Int) : ℚ) / 1000) = ((-2 : Int) : ℚ) := by
    norm_num
  rw [hq, ratTruncToInt_intCast]

/-- C8 amended: `remaining_seconds` is `-1` exactly when the computed speed is
`≤ 0`; whenever the speed is positive, `remaining_seconds` is the truncation
of `(total_bytes − downloaded_bytes) / speed` — regardless of whether the
total size is known (an unknown total of `0` gives a negative value, not
`-1`). -/
theorem snapshot_eta_spec (m : ProgressMonitor) (now : ℚ) :
    ((m.snapshot now).1.speed_bytes_per_sec ≤ 0 →
        (m.snapshot now).1.remaining_seconds = -1)
      ∧ (0 < (m.snapshot now).1.speed_bytes_per_sec →
          (m.snapshot now).1.remaining_seconds
            = ratTruncToInt (((m.total_bytes - m.downloaded_bytes : Int) : ℚ)
                / (m.snapshot now).1.speed_bytes_per_sec)) := by
  have hspeed : (m.snapshot now).1.speed_bytes_per_sec = snapshotSpeed m now := rfl
  have hrem : (m.snapshot now).1.remaining_seconds
      = (if 0 < snapshotSpeed m now then
          ratTruncToInt (((m.total_bytes - m.downloaded_bytes : Int) : ℚ)
            / snapshotSpeed m now)
        else -1) := rfl
  constructor
  · intro hle
    rw [hspeed] at hle
    rw [hrem, if_neg (by exact not_lt.mpr hle)]
  · intro hlt
    rw [hspeed] at hlt
    rw [hrem, if_pos hlt, hspeed]

/-- Closed instance of `snapshot_eta_spec`: a monitor with no samples has
speed `0` and `remaining_seconds = -1`. -/
theorem snapshot_eta_spec_witness :
    ((ProgressMonitor.mk 10000 0 []).snapshot 0).1.remaining_seconds = -1 :=
  (snapshot_eta_spec (ProgressMonitor.mk 10000 0 []) 0).1 (by decide)

/-! ### Token bucket (src/core/token_bucket.cpp)

The blocking `acquire` loop is driven by an explicit list of wake-up
instants (the entry time followed by the instants at which the
condition-variable wait returns); `none` means the modelled schedule ended
with the caller still waiting. -/

structure TokenBucket where
  rate : Int
  tokens : Int
  max_tokens : Int
  cancelled : Bool
  last_refill : ℚ
deriving Repr, DecidableEq

def TokenBucket.init (rate_bytes_per_sec : Int) : TokenBucket :=
  { rate := rate_bytes_per_sec, tokens := rate_bytes_per_sec,
    max_tokens := rate_bytes_per_sec, cancelled := false, last_refill := 0 }

def TokenBucket.cancel (b : TokenBucket) : TokenBucket :=
  { b with cancelled := true }

def TokenBucket.refill (b : TokenBucket) (now : ℚ) : TokenBucket :=
  let elapsed_us : Int := ratTruncToInt ((now - b.last_refill) * 1000000)
  if elapsed_us ≤ 0 ∨ b.rate ≤ 0 then b
  else
    let new_tokens : Int :=
      ratTruncToInt ((b.rate : ℚ) * (elapsed_us : ℚ) / 1000000)
    if 0 < new_tokens then
      { b with tokens := min (b.tokens + new_tokens) b.max_tokens,
               last_refill := now }
    else b

def acquireLoop (n : Int) : TokenBucket → List ℚ → Option Int × TokenBucket
  | b, [] => (none, b)
  | b, now :: rest =>
    if b.cancelled then (some 0, b)
    else
      let b2 := b.refill now
      if n ≤ b2.tokens then (some n, { b2 with tokens := b2.tokens - n })
      else if b2.rate = 0 then (some n, b2)
      else acquireLoop n b2 rest

def TokenBucket.acquire (b : TokenBucket) (n : Int) (times : List ℚ) :
    Option Int × TokenBucket :=
  if n ≤ 0 then (some 0, b)
  else if b.rate = 0 then (some n, b)
  else acquireLoop n b times

/-- C9 counterexample: with `rate == 0`, `acquire` returns `n` on its
fast path *before* consulting the cancellation flag, so after `cancel()` an
`acquire(5)` on a zero-rate bucket returns `5`, not the `0` the claim
requires for every configured rate. -/
theorem tokenBucket_cancel_rate0_passthrough :
    ((TokenBucket.init 0).cancel.acquire 5 [0]).1 = some 5
      ∧ some (5 : Int) ≠ some (0 : Int) :=
  ⟨rfl, by decide⟩

/-- C9 amended: after `cancel()`, every `acquire(n)` with `n > 0` returns `0`
whenever the configured rate is non-zero (the flag is the first check of each
loop iteration); when the rate is `0`, `acquire` bypasses the flag and
returns `n`. -/
theorem tokenBucket_cancel_spec (b : TokenBucket) (n : Int) (times : List ℚ) :
    (b.cancelled = true → 0 < n → b.rate ≠ 0 → times ≠ [] →
        (b.acquire n times).1 = some 0)
      ∧ (0 < n → b.rate = 0 → (b.acquire n times).1 = some n) := by
  constructor
  · intro hc hn hr ht
    match times with
    | [] => exact absurd rfl ht
    | t :: ts =>
      unfold TokenBucket.acquire
      rw [if_neg (by omega), if_neg hr]
      unfold acquireLoop
      rw [if_pos hc]
  · intro hn hr
    unfold TokenBucket.acquire
    rw [if_neg (by omega), if_pos hr]

/-- Closed instance of `tokenBucket_cancel_spec` at concrete buckets. -/
theorem tokenBucket_cancel_spec_witness :
    (((TokenBucket.init 1000).cancel).acquire 100 [0]).1 = some 0
      ∧ (((TokenBucket.init 0).cancel).acquire 100 [0]).1 = some 100 :=
  ⟨(tokenBucket_cancel_spec _ _ _).1 rfl (by decide) (by decide) (by decide),
   (tokenBucket_cancel_spec _ _ _).2 (by decide) rfl⟩

/-! ### HTTP engine retry loop (src/core/http_engine.cpp, `HttpEngine::download`)

libcurl is external: each `curl_easy_perform` is an oracle giving either a
CURL error code or completion with an HTTP status (`DlEnv.outcome`), and the
cross-thread cancellation flag is an oracle consulted at exactly the points
the source reads it: at the top of each loop iteration, after the backoff
sleep, and after a failed perform.  Only the CURL codes the source
distinguishes are named; every other code is `otherError`.  The function
returns the thrown/able result together with the number of performs made and
the list of backoff sleeps (in seconds) actually executed. -/

inductive CurlCode where
  | operationTimedOut
  | couldntConnect
  | couldntResolveHost
  | couldntResolveProxy
  | gotNothing
  | recvError
  | sendError
  | partialFile
  | sslCertProblem
  | peerFailedVerification
  | writeError
  | otherError
deriving Repr, DecidableEq

def isRetryableCurlCode : CurlCode → Bool
  | .operationTimedOut => true
  | .couldntConnect => true
  | .couldntResolveHost => true
  | .couldntResolveProxy => true
  | .gotNothing => true
  | .recvError => true
  | .sendError => true
  | .partialFile => true
  | _ => false

def isNonRetryableHttpStatus (http_code : Nat) : Bool :=
  decide (400 ≤ http_code) && decide (http_code < 500)

def isTlsCertError : CurlCode → Bool
  | .sslCertProblem => true
  | .peerFailedVerification => true
  | _ => false

def kRetryBackoffSec : List Nat := [1, 2, 4]

/-- Backoff before attempt number `attempt ≥ 1`:
`kRetryBackoffSec[min (attempt-1) 2]`. -/
def backoffSec (attempt : Nat) : Nat :=
  kRetryBackoffSec.getD (min (attempt - 1) (kRetryBackoffSec.length - 1)) 0

inductive CurlOutcome where
  | ok (httpStatus : Nat)
  | err (code : CurlCode)
deriving Repr, DecidableEq

structure DlEnv where
  outcome : Nat → CurlOutcome
  cancelBeforeAttempt : Nat → Bool
  cancelAfterSleep : Nat → Bool
  cancelAfterFail : Nat → Bool

inductive DlResult where
  | success
  | cancelled
  | failed (retryable : Bool)
deriving Repr, DecidableEq

/-- The backoff sleep performed at the head of attempt `attempt` (none before
the first attempt). -/
def attemptSleeps (attempt : Nat) : List Nat :=
  if attempt = 0 then [] else [backoffSec attempt]

def downloadGo (env : DlEnv) : Nat → Nat → Bool → DlResult × Nat × List Nat
  | _, 0, lastRetryable => (.failed lastRetryable, 0, [])
  | attempt, remaining + 1, _ =>
    if env.cancelBeforeAttempt attempt then (.cancelled, 0, [])
    else if attempt ≠ 0 ∧ env.cancelAfterSleep attempt = true then
      (.cancelled, 0, attemptSleeps attempt)
    else
      match env.outcome attempt with
      | .ok status =>
        if 400 ≤ status then
          if isNonRetryableHttpStatus status then
            (.failed false, 1, attemptSleeps attempt)
          else
            let r := downloadGo env (attempt + 1) remaining true
            (r.1, r.2.1 + 1, attemptSleeps attempt ++ r.2.2)
        else (.success, 1, attemptSleeps attempt)
      | .err code =>
        if env.cancelAfterFail attempt then (.cancelled, 1, attemptSleeps attempt)
        else if isTlsCertError code then (.failed false, 1, attemptSleeps attempt)
        else if isRetryableCurlCode code then
          let r := downloadGo env (attempt + 1) remaining true
          (r.1, r.2.1 + 1, attemptSleeps attempt ++ r.2.2)
        else (.failed false, 1, attemptSleeps attempt)

def HttpEngine.download (env : DlEnv) (max_retries : Nat) :
    DlResult × Nat × List Nat :=
  downloadGo env 0 (max_retries + 1) false

/-- "Transient network condition" in the claim's words: a retryable CURL code
(timeout, connection failure, DNS failure, nothing/partial transfer,
send/recv error) or an HTTP 5xx status. -/
def transientOutcome (env : DlEnv) (i : Nat) : Prop :=
  (∃ s, env.outcome i = .ok s ∧ 500 ≤ s ∧ s ≤ 599)
    ∨ (∃ c, env.outcome i = .err c ∧ isRetryableCurlCode c = true)

/-- "Fails immediately" cases in the claim's words: HTTP 4xx, or a TLS
certificate failure (not raced by the cancellation flag). -/
def claimNonRetryableAt (env : DlEnv) (i : Nat) : Prop :=
  (∃ s, env.outcome i = .ok s ∧ 400 ≤ s ∧ s < 500)
    ∨ (∃ c, env.outcome i = .err c ∧ isTlsCertError c = true
        ∧ env.cancelAfterFail i = false)

theorem retryable_not_tls (c : CurlCode) :
    isRetryableCurlCode c = true → isTlsCertError c = false := by
  cases c <;> simp [isRetryableCurlCode, isTlsCertError]

theorem downloadGo_cancelBefore (env : DlEnv) (a r : Nat) (l : Bool)
    (h : env.cancelBeforeAttempt a = true) :
    downloadGo env a (r + 1) l = (.cancelled, 0, []) := by
  unfold downloadGo
  rw [if_pos h]

theorem downloadGo_cancelSleep (env : DlEnv) (a r : Nat) (l : Bool)
    (h1 : ¬ env.cancelBeforeAttempt a = true)
    (h2 : a ≠ 0 ∧ env.cancelAfterSleep a = true) :
    downloadGo env a (r + 1) l = (.cancelled, 0, attemptSleeps a) := by
  unfold downloadGo
  rw [if_neg h1, if_pos h2]

theorem downloadGo_ok_4xx (env : DlEnv) (a r : Nat) (l : Bool) (status : Nat)
    (h1 : ¬ env.cancelBeforeAttempt a = true)
    (h2 : ¬ (a ≠ 0 ∧ env.cancelAfterSleep a = true))
    (ho : env.outcome a = .ok status)
    (h3 : 400 ≤ status) (h4 : isNonRetryableHttpStatus status = true) :
    downloadGo env a (r + 1) l = (.failed false, 1, attemptSleeps a) := by
  unfold downloadGo
  rw [if_neg h1, if_neg h2, ho]
  dsimp only
  rw [if_pos h3, if_pos h4]

theorem downloadGo_ok_5xx (env : DlEnv) (a r : Nat) (l : Bool) (status : Nat)
    (h1 : ¬ env.cancelBeforeAttempt a = true)
    (h2 : ¬ (a ≠ 0 ∧ env.cancelAfterSleep a = true))
    (ho : env.outcome a = .ok status)
    (h3 : 400 ≤ status) (h4 : ¬ isNonRetryableHttpStatus status = true) :
    downloadGo env a (r + 1) l
      = ((downloadGo env (a + 1) r true).1,
         (downloadGo env (a + 1) r true).2.1 + 1,
         attemptSleeps a ++ (downloadGo env (a + 1) r true).2.2) := by
  simp only [downloadGo]
  rw [if_neg h1, if_neg h2, ho]
  dsimp only
  rw [if_pos h3, if_neg h4]

theorem downloadGo_ok_success (env : DlEnv) (a r : Nat) (l : Bool) (status : Nat)
    (h1 : ¬ env.cancelBeforeAttempt a = true)
    (h2 : ¬ (a ≠ 0 ∧ env.cancelAfterSleep a = true))
    (ho : env.outcome a = .ok status)
    (h3 : ¬ 400 ≤ status) :
    downloadGo env a (r + 1) l = (.success, 1, attemptSleeps a) := by
  unfold downloadGo
  rw [if_neg h1, if_neg h2, ho]
  dsimp only
  rw [if_neg h3]

theorem downloadGo_err_cancel (env : DlEnv) (a r : Nat) (l : Bool) (code : CurlCode)
    (h1 : ¬ env.cancelBeforeAttempt a = true)
    (h2 : ¬ (a ≠ 0 ∧ env.cancelAfterSleep a = true))
    (ho : env.outcome a = .err code)
    (h3 : env.cancelAfterFail a = true) :
    downloadGo env a (r + 1) l = (.cancelled, 1, attemptSleeps a) := by
  unfold downloadGo
  rw [if_neg h1, if_neg h2, ho]
  dsimp only
  rw [if_pos h3]

theorem downloadGo_err_tls (env : DlEnv) (a r : Nat) (l : Bool) (code : CurlCode)
    (h1 : ¬ env.cancelBeforeAttempt a = true)
    (h2 : ¬ (a ≠ 0 ∧ env.cancelAfterSleep a = true))
    (ho : env.outcome a = .err code)
    (h3 : ¬ env.cancelAfterFail a = true)
    (h4 : isTlsCertError code = true) :
    downloadGo env a (r + 1) l = (.failed false, 1, attemptSleeps a) := by
  unfold downloadGo
  rw [if_neg h1, if_neg h2, ho]
  dsimp only
  rw [if_neg h3, if_pos h4]

theorem downloadGo_err_retry (env : DlEnv) (a r : Nat) (l : Bool) (code : CurlCode)
    (h1 : ¬ env.cancelBeforeAttempt a = true)
    (h2 : ¬ (a ≠ 0 ∧ env.cancelAfterSleep a = true))
    (ho : env.outcome a = .err code)
    (h3 : ¬ env.cancelAfterFail a = true)
    (h4 : ¬ isTlsCertError code = true)
    (h5 : isRetryableCurlCode code = true) :
    downloadGo env a (r + 1) l
      = ((downloadGo env (a + 1) r true).1,
         (downloadGo env (a + 1) r true).2.1 + 1,
         attemptSleeps a ++ (downloadGo env (a + 1) r true).2.2) := by
  simp only [downloadGo]
  rw [if_neg h1, if_neg h2, ho]
  dsimp only
  rw [if_neg h3, if_neg h4, if_pos h5]

theorem downloadGo_err_fatal (env : DlEnv) (a r : Nat) (l : Bool) (code : CurlCode)
    (h1 : ¬ env.cancelBeforeAttempt a = true)
    (h2 : ¬ (a ≠ 0 ∧ env.cancelAfterSleep a = true))
    (ho : env.outcome a = .err code)
    (h3 : ¬ env.cancelAfterFail a = true)
    (h4 : ¬ isTlsCertError code = true)
    (h5 : ¬ isRetryableCurlCode code = true) :
    downloadGo env a (r + 1) l = (.failed false, 1, attemptSleeps a) := by
  unfold downloadGo
  rw [if_neg h1, if_neg h2, ho]
  dsimp only
  rw [if_neg h3, if_neg h4, if_neg h5]

theorem downloadGo_attempts_le (env : DlEnv) :
    ∀ (r a : Nat) (l : Bool), (downloadGo env a r l).2.1 ≤ r := by
  intro r
  induction r with
  | zero => intro a l; simp [downloadGo]
  | succ n ih =>
    intro a l
    by_cases h1 : env.cancelBeforeAttempt a = true
    · rw [downloadGo_cancelBefore env a n l h1]
      simp
    · by_cases h2 : a ≠ 0 ∧ env.cancelAfterSleep a = true
      · rw [downloadGo_cancelSleep env a n l h1 h2]
        simp
      · cases ho : env.outcome a with
        | ok status =>
          by_cases h3 : 400 ≤ status
          · by_cases h4 : isNonRetryableHttpStatus status = true
            · rw [downloadGo_ok_4xx env a n l status h1 h2 ho h3 h4]
              simp
            · rw [downloadGo_ok_5xx env a n l status h1 h2 ho h3 h4]
              have := ih (a + 1) true
              simp only
              omega
          · rw [downloadGo_ok_success env a n l status h1 h2 ho h3]
            simp
        | err code =>
          by_cases h3 : env.cancelAfterFail a = true
          · rw [downloadGo_err_cancel env a n l code h1 h2 ho h3]
            simp
          · by_cases h4 : isTlsCertError code = true
            · rw [downloadGo_err_tls env a n l code h1 h2 ho h3 h4]
              simp
            · by_cases h5 : isRetryableCurlCode code = true
              · rw [downloadGo_err_retry env a n l code h1 h2 ho h3 h4 h5]
                have := ih (a + 1) true
                simp only
                omega
              · rw [downloadGo_err_fatal env a n l code h1 h2 ho h3 h4 h5]
                simp

theorem cons_map_range (f : Nat → Nat) (a k : Nat) :
    f a :: (List.range k).map (fun j => f (a + 1 + j))
      = (List.range (k + 1)).map (fun j => f (a + j)) := by
  rw [List.range_succ_eq_map, List.map_cons, List.map_map]
  congr 1
  apply List.map_congr_left
  intro x _
  simp only [Function.comp_apply]
  congr 1
  omega

theorem attemptSleeps_eq (a : Nat) :
    ∃ k, attemptSleeps a = (List.range k).map (fun j => backoffSec (max 1 a + j)) := by
  cases a with
  | zero => exact ⟨0, by simp [attemptSleeps]⟩
  | succ m =>
    refine ⟨1, ?_⟩
    have hr1 : List.range 1 = [0] := rfl
    have hm : max 1 (m + 1) = m + 1 := by omega
    simp [attemptSleeps, hr1, hm]

theorem downloadGo_sleeps (env : DlEnv) :
    ∀ (r a : Nat) (l : Bool), ∃ k,
      (downloadGo env a r l).2.2
        = (List.range k).map (fun j => backoffSec (max 1 a + j)) := by
  intro r
  induction r with
  | zero => intro a l; exact ⟨0, by simp [downloadGo]⟩
  | succ n ih =>
    intro a l
    by_cases h1 : env.cancelBeforeAttempt a = true
    · exact ⟨0, by rw [downloadGo_cancelBefore env a n l h1]; rfl⟩
    · by_cases h2 : a ≠ 0 ∧ env.cancelAfterSleep a = true
      · obtain ⟨k, hk⟩ := attemptSleeps_eq a
        exact ⟨k, by rw [downloadGo_cancelSleep env a n l h1 h2]; exact hk⟩
      · have hrec : ∀ tail, tail = (downloadGo env (a + 1) n true).2.2 →
            ∃ k, attemptSleeps a ++ tail
              = (List.range k).map (fun j => backoffSec (max 1 a + j)) := by
          intro tail htail
          obtain ⟨k, hk⟩ := ih (a + 1) true
          rw [htail, hk]
          have hmax1 : max 1 (a + 1) = a + 1 := by omega
          rw [hmax1]
          cases a with
          | zero =>
            refine ⟨k, ?_⟩
            simp [attemptSleeps]
          | succ m =>
            refine ⟨k + 1, ?_⟩
            have hsl : attemptSleeps (m + 1) = [backoffSec (m + 1)] := by
              simp [attemptSleeps]
            have hmax2 : max 1 (m + 1) = m + 1 := by omega
            rw [hsl, hmax2, List.singleton_append]
            exact cons_map_range backoffSec (m + 1) k
        obtain ⟨ks, hks⟩ := attemptSleeps_eq a
        cases ho : env.outcome a with
        | ok status =>
          by_cases h3 : 400 ≤ status
          · by_cases h4 : isNonRetryableHttpStatus status = true
            · exact ⟨ks, by rw [downloadGo_ok_4xx env a n l status h1 h2 ho h3 h4]; exact hks⟩
            · obtain ⟨k, hk⟩ := hrec _ rfl
              exact ⟨k, by rw [downloadGo_ok_5xx env a n l status h1 h2 ho h3 h4]; exact hk⟩
          · exact ⟨ks, by rw [downloadGo_ok_success env a n l status h1 h2 ho h3]; exact hks⟩
        | err code =>
          by_cases h3 : env.cancelAfterFail a = true
          · exact ⟨ks, by rw [downloadGo_err_cancel env a n l code h1 h2 ho h3]; exact hks⟩
          · by_cases h4 : isTlsCertError code = true
            · exact ⟨ks, by rw [downloadGo_err_tls env a n l code h1 h2 ho h3 h4]; exact hks⟩
            · by_cases h5 : isRetryableCurlCode code = true
              · obtain ⟨k, hk⟩ := hrec _ rfl
                exact ⟨k, by rw [downloadGo_err_retry env a n l code h1 h2 ho h3 h4 h5]; exact hk⟩
              · exact ⟨ks, by rw [downloadGo_err_fatal env a n l code h1 h2 ho h3 h4 h5]; exact hks⟩

theorem downloadGo_checks (env : DlEnv) :
    ∀ (r a : Nat) (l : Bool) (i : Nat),
      a ≤ i → i < a + (downloadGo env a r l).2.1 →
      env.cancelBeforeAttempt i = false
        ∧ (i ≠ 0 → env.cancelAfterSleep i = false) := by
  intro r
  induction r with
  | zero =>
    intro a l i hai hi
    have h0 : (downloadGo env a 0 l).2.1 = 0 := rfl
    rw [h0] at hi
    exact absurd hi (by omega)
  | succ n ih =>
    intro a l i hai hi
    by_cases h1 : env.cancelBeforeAttempt a = true
    · rw [downloadGo_cancelBefore env a n l h1] at hi
      dsimp only at hi
      exact absurd hi (by omega)
    · have hcb : env.cancelBeforeAttempt a = false := Bool.eq_false_iff.mpr h1
      have hcs : a ≠ 0 → env.cancelAfterSleep a = false := by
        intro ha0
        by_cases hsleep : env.cancelAfterSleep a = true
        · exfalso
          have h2' : a ≠ 0 ∧ env.cancelAfterSleep a = true := ⟨ha0, hsleep⟩
          rw [downloadGo_cancelSleep env a n l h1 h2'] at hi
          dsimp only at hi
          omega
        · exact Bool.eq_false_iff.mpr hsleep
      by_cases h2 : a ≠ 0 ∧ env.cancelAfterSleep a = true
      · rw [downloadGo_cancelSleep env a n l h1 h2] at hi
        dsimp only at hi
        exact absurd hi (by omega)
      · rcases Nat.lt_or_ge a i with hai' | hai'
        · -- i > a: only possible in a retry branch
          cases ho : env.outcome a with
          | ok status =>
            by_cases h3 : 400 ≤ status
            · by_cases h4 : isNonRetryableHttpStatus status = true
              · rw [downloadGo_ok_4xx env a n l status h1 h2 ho h3 h4] at hi
                dsimp only at hi
                exact absurd hi (by omega)
              · rw [downloadGo_ok_5xx env a n l status h1 h2 ho h3 h4] at hi
                dsimp only at hi
                exact ih (a + 1) true i (by omega) (by omega)
            · rw [downloadGo_ok_success env a n l status h1 h2 ho h3] at hi
              dsimp only at hi
              exact absurd hi (by omega)
          | err code =>
            by_cases h3 : env.cancelAfterFail a = true
            · rw [downloadGo_err_cancel env a n l code h1 h2 ho h3] at hi
              dsimp only at hi
              exact absurd hi (by omega)
            · by_cases h4 : isTlsCertError code = true
              · rw [downloadGo_err_tls env a n l code h1 h2 ho h3 h4] at hi
                dsimp only at hi
                exact absurd hi (by omega)
              · by_cases h5 : isRetryableCurlCode code = true
                · rw [downloadGo_err_retry env a n l code h1 h2 ho h3 h4 h5] at hi
                  dsimp only at hi
                  exact ih (a + 1) true i (by omega) (by omega)
                · rw [downloadGo_err_fatal env a n l code h1 h2 ho h3 h4 h5] at hi
                  dsimp only at hi
                  exact absurd hi (by omega)
        · have hia : i = a := by omega
          subst hia
          exact ⟨hcb, hcs⟩

theorem downloadGo_retry_raw (env : DlEnv) :
    ∀ (r a : Nat) (l : Bool) (i : Nat),
      a ≤ i → i + 1 < a + (downloadGo env a r l).2.1 →
      ((∃ s, env.outcome i = .ok s ∧ 400 ≤ s ∧ isNonRetryableHttpStatus s = false)
        ∨ (∃ c, env.outcome i = .err c ∧ isRetryableCurlCode c = true
            ∧ env.cancelAfterFail i = false)) := by
  intro r
  induction r with
  | zero =>
    intro a l i hai hi
    have h0 : (downloadGo env a 0 l).2.1 = 0 := rfl
    rw [h0] at hi
    exact absurd hi (by omega)
  | succ n ih =>
    intro a l i hai hi
    by_cases h1 : env.cancelBeforeAttempt a = true
    · rw [downloadGo_cancelBefore env a n l h1] at hi
      dsimp only at hi
      exact absurd hi (by omega)
    · by_cases h2 : a ≠ 0 ∧ env.cancelAfterSleep a = true
      · rw [downloadGo_cancelSleep env a n l h1 h2] at hi
        dsimp only at hi
        exact absurd hi (by omega)
      · cases ho : env.outcome a with
        | ok status =>
          by_cases h3 : 400 ≤ status
          · by_cases h4 : isNonRetryableHttpStatus status = true
            · rw [downloadGo_ok_4xx env a n l status h1 h2 ho h3 h4] at hi
              dsimp only at hi
              exact absurd hi (by omega)
            · rw [downloadGo_ok_5xx env a n l status h1 h2 ho h3 h4] at hi
              dsimp only at hi
              rcases Nat.lt_or_ge a i with hai' | hai'
              · exact ih (a + 1) true i (by omega) (by omega)
              · have hia : i = a := by omega
                subst hia
                exact Or.inl ⟨status, ho, h3, Bool.eq_false_iff.mpr h4⟩
          · rw [downloadGo_ok_success env a n l status h1 h2 ho h3] at hi
            dsimp only at hi
            exact absurd hi (by omega)
        | err code =>
          by_cases h3 : env.cancelAfterFail a = true
          · rw [downloadGo_err_cancel env a n l code h1 h2 ho h3] at hi
            dsimp only at hi
            exact absurd hi (by omega)
          · by_cases h4 : isTlsCertError code = true
            · rw [downloadGo_err_tls env a n l code h1 h2 ho h3 h4] at hi
              dsimp only at hi
              exact absurd hi (by omega)
            · by_cases h5 : isRetryableCurlCode code = true
              · rw [downloadGo_err_retry env a n l code h1 h2 ho h3 h4 h5] at hi
                dsimp only at hi
                rcases Nat.lt_or_ge a i with hai' | hai'
                · exact ih (a + 1) true i (by omega) (by omega)
                · have hia : i = a := by omega
                  subst hia
                  exact Or.inr ⟨code, ho, h5, Bool.eq_false_iff.mpr h3⟩
              · rw [downloadGo_err_fatal env a n l code h1 h2 ho h3 h4 h5] at hi
                dsimp only at hi
                exact absurd hi (by omega)

theorem nonRetryableHttpStatus_of_4xx (s : Nat) (h1 : 400 ≤ s) (h2 : s < 500) :
    isNonRetryableHttpStatus s = true := by
  simp [isNonRetryableHttpStatus]
  omega

theorem downloadGo_nonretry_stops (env : DlEnv) :
    ∀ (r a : Nat) (l : Bool) (i : Nat),
      a ≤ i → i < a + (downloadGo env a r l).2.1 →
      claimNonRetryableAt env i →
      a + (downloadGo env a r l).2.1 = i + 1
        ∧ (downloadGo env a r l).1 = .failed false := by
  intro r
  induction r with
  | zero =>
    intro a l i hai hi _
    have h0 : (downloadGo env a 0 l).2.1 = 0 := rfl
    rw [h0] at hi
    exact absurd hi (by omega)
  | succ n ih =>
    intro a l i hai hi hclaim
    by_cases h1 : env.cancelBeforeAttempt a = true
    · rw [downloadGo_cancelBefore env a n l h1] at hi
      dsimp only at hi
      exact absurd hi (by omega)
    · by_cases h2 : a ≠ 0 ∧ env.cancelAfterSleep a = true
      · rw [downloadGo_cancelSleep env a n l h1 h2] at hi
        dsimp only at hi
        exact absurd hi (by omega)
      · cases ho : env.outcome a with
        | ok status =>
          by_cases h3 : 400 ≤ status
          · by_cases h4 : isNonRetryableHttpStatus status = true
            · rw [downloadGo_ok_4xx env a n l status h1 h2 ho h3 h4] at hi ⊢
              dsimp only at hi ⊢
              exact ⟨by omega, rfl⟩
            · rw [downloadGo_ok_5xx env a n l status h1 h2 ho h3 h4] at hi ⊢
              dsimp only at hi ⊢
              rcases Nat.lt_or_ge a i with hai' | hai'
              · have hrec := ih (a + 1) true i (by omega) (by omega) hclaim
                exact ⟨by omega, hrec.2⟩
              · have hia : i = a := by omega
                subst hia
                exfalso
                rcases hclaim with ⟨s, hs, hs1, hs2⟩ | ⟨c, hc, _, _⟩
                · rw [ho] at hs
                  have hss := CurlOutcome.ok.inj hs
                  rw [← hss] at hs1 hs2
                  exact h4 (nonRetryableHttpStatus_of_4xx status hs1 hs2)
                · rw [ho] at hc
                  exact (CurlOutcome.noConfusion hc)
          · rw [downloadGo_ok_success env a n l status h1 h2 ho h3] at hi
            dsimp only at hi
            have hia : i = a := by omega
            subst hia
            exfalso
            rcases hclaim with ⟨s, hs, hs1, _⟩ | ⟨c, hc, _, _⟩
            · rw [ho] at hs
              have := CurlOutcome.ok.inj hs
              subst this
              exact h3 hs1
            · rw [ho] at hc
              exact (CurlOutcome.noConfusion hc)
        | err code =>
          by_cases h3 : env.cancelAfterFail a = true
          · rw [downloadGo_err_cancel env a n l code h1 h2 ho h3] at hi
            dsimp only at hi
            have hia : i = a := by omega
            subst hia
            exfalso
            rcases hclaim with ⟨s, hs, _, _⟩ | ⟨c, hc, _, hcf⟩
            · rw [ho] at hs
              exact (CurlOutcome.noConfusion hs)
            · rw [h3] at hcf
              exact (Bool.noConfusion hcf)
          · by_cases h4 : isTlsCertError code = true
            · rw [downloadGo_err_tls env a n l code h1 h2 ho h3 h4] at hi ⊢
              dsimp only at hi ⊢
              exact ⟨by omega, rfl⟩
            · by_cases h5 : isRetryableCurlCode code = true
              · rw [downloadGo_err_retry env a n l code h1 h2 ho h3 h4 h5] at hi ⊢
                dsimp only at hi ⊢
                rcases Nat.lt_or_ge a i with hai' | hai'
                · have hrec := ih (a + 1) true i (by omega) (by omega) hclaim
                  exact ⟨by omega, hrec.2⟩
                · have hia : i = a := by omega
                  subst hia
                  exfalso
                  rcases hclaim with ⟨s, hs, _, _⟩ | ⟨c, hc, htls, _⟩
                  · rw [ho] at hs
                    exact (CurlOutcome.noConfusion hs)
                  · rw [ho] at hc
                    have hcc := CurlOutcome.err.inj hc
                    rw [← hcc] at htls
                    rw [retryable_not_tls code h5] at htls
                    exact (Bool.noConfusion htls)
              · rw [downloadGo_err_fatal env a n l code h1 h2 ho h3 h4 h5] at hi ⊢
                dsimp only at hi ⊢
                exact ⟨by omega, rfl⟩

/-- C6: `HttpEngine::download` makes at most `max_retries + 1` attempts; the
backoff sleeps it performs are exactly `backoffSec 1, backoffSec 2, …` —
i.e. 1 s before the second attempt, 2 s before the third, 4 s before every
later one; it retries only after a transient failure (a retryable CURL code,
or an HTTP 5xx given that real statuses are ≤ 599); an HTTP 4xx or TLS
certificate failure ends the loop immediately with a non-retryable error;
every performed attempt passed its cancellation checks (before the attempt
and after the backoff sleep), and a flag set before the first attempt aborts
with no attempt and no sleep. -/
theorem httpEngine_download_retry_spec (env : DlEnv) (max_retries : Nat)
    (hstatus : ∀ i s, env.outcome i = .ok s → s ≤ 599) :
    (HttpEngine.download env max_retries).2.1 ≤ max_retries + 1
      ∧ (HttpEngine.download env max_retries).2.2
          = (List.range (HttpEngine.download env max_retries).2.2.length).map
              (fun j => backoffSec (j + 1))
      ∧ (backoffSec 1 = 1 ∧ backoffSec 2 = 2 ∧ ∀ j, 3 ≤ j → backoffSec j = 4)
      ∧ (∀ i, i + 1 < (HttpEngine.download env max_retries).2.1 →
          transientOutcome env i)
      ∧ (∀ i, i < (HttpEngine.download env max_retries).2.1 →
          claimNonRetryableAt env i →
          (HttpEngine.download env max_retries).2.1 = i + 1
            ∧ (HttpEngine.download env max_retries).1 = .failed false)
      ∧ (∀ i, i < (HttpEngine.download env max_retries).2.1 →
          env.cancelBeforeAttempt i = false
            ∧ (i ≠ 0 → env.cancelAfterSleep i = false))
      ∧ (env.cancelBeforeAttempt 0 = true →
          HttpEngine.download env max_retries = (.cancelled, 0, [])) := by
  unfold HttpEngine.download
  refine ⟨?_, ?_, ?_, ?_, ?_, ?_, ?_⟩
  · exact downloadGo_attempts_le env (max_retries + 1) 0 false
  · obtain ⟨k, hk⟩ := downloadGo_sleeps env (max_retries + 1) 0 false
    rw [hk, List.length_map, List.length_range]
    apply List.map_congr_left
    intro j _
    congr 1
    omega
  · refine ⟨rfl, rfl, ?_⟩
    intro j hj
    have hmin : min (j - 1) (kRetryBackoffSec.length - 1) = 2 := by
      simp [kRetryBackoffSec]
      omega
    unfold backoffSec
    rw [hmin]
    rfl
  · intro i hi
    have hraw := downloadGo_retry_raw env (max_retries + 1) 0 false i
      (by omega) (by omega)
    rcases hraw with ⟨s, hs, hs400, hsnon⟩ | ⟨c, hc, hcr, _⟩
    · left
      refine ⟨s, hs, ?_, hstatus i s hs⟩
      have hno4 : ¬ (400 ≤ s ∧ s < 500) := by
        intro hcon
        rw [nonRetryableHttpStatus_of_4xx s hcon.1 hcon.2] at hsnon
        exact (Bool.noConfusion hsnon)
      omega
    · right
      exact ⟨c, hc, hcr⟩
  · intro i hi hclaim
    have h := downloadGo_nonretry_stops env (max_retries + 1) 0 false i
      (by omega) (by omega) hclaim
    exact ⟨by omega, h.2⟩
  · intro i hi
    exact downloadGo_checks env (max_retries + 1) 0 false i (by omega) (by omega)
  · intro hc
    exact downloadGo_cancelBefore env 0 max_retries false hc

/-- A concrete libcurl oracle: attempt 0 times out, attempt 1 gets HTTP 503,
attempt 2 succeeds; no cancellation. -/
def envW : DlEnv :=
  { outcome := fun i =>
      if i = 0 then .err .operationTimedOut
      else if i = 1 then .ok 503 else .ok 200,
    cancelBeforeAttempt := fun _ => false,
    cancelAfterSleep := fun _ => false,
    cancelAfterFail := fun _ => false }

/-- Closed instance of `httpEngine_download_retry_spec` at `envW` with
`max_retries = 3`. -/
theorem httpEngine_download_retry_spec_witness :
    (HttpEngine.download envW 3).2.1 ≤ 3 + 1
      ∧ (HttpEngine.download envW 3).2.2
          = (List.range (HttpEngine.download envW 3).2.2.length).map
              (fun j => backoffSec (j + 1)) := by
  have hs : ∀ i s, envW.outcome i = .ok s → s ≤ 599 := by
    intro i s hi
    simp only [envW] at hi
    split at hi
    · exact (CurlOutcome.noConfusion hi)
    · split at hi
      · have := CurlOutcome.ok.inj hi
        omega
      · have := CurlOutcome.ok.inj hi
        omega
  have h := httpEngine_download_retry_spec envW 3 hs
  exact ⟨h.1, h.2.1⟩

/-! ### Task ↔ Block failure propagation (src/core/task.cpp, `submitBlocks` /
`onBlockProgress` / `checkCompletion`; block.cpp, `Block::execute`)

What the source does when a block's `execute` returns: on clean completion the
block sets `completed = true` and fires a 0-delta progress event, which runs
`onBlockProgress`; when `execute` throws (the fetcher's retries exhausted on a
non-retryable error), the lambda submitted in `Task::submitBlocks` catches the
exception and does nothing — no state change, no progress event, and the
block's `completed` flag stays `false`.  `checkCompletion` (which alone can
set `Failed`/`Completed` from here) runs only when *every* block reports
`completed`. -/

structure TaskBlocks where
  state : TaskState
  blocks : List Bool
  size_ok : Bool
deriving Repr, DecidableEq

def onBlockProgressModel (t : TaskBlocks) : TaskBlocks :=
  if t.state = TaskState.Cancelled then t
  else if t.blocks.all id ∧ t.state = TaskState.Downloading then
    if t.size_ok then { t with state := TaskState.Completed }
    else { t with state := TaskState.Failed }
  else t

/-- The effect on the Task of block `i`'s pool job returning: success marks
the block completed and fires the progress event; a thrown `HttpError` is
swallowed by the `submitBlocks` lambda (`catch (const std::exception&) {}`),
leaving the Task untouched. -/
def blockReturn (t : TaskBlocks) (i : Nat) (ok : Bool) : TaskBlocks :=
  if ok then onBlockProgressModel { t with blocks := t.blocks.set i true }
  else t

/-- C5: a Downloading single-block Task whose only block fails irrecoverably
(all blocks have returned) stays in `Downloading` — it never transitions to
`Failed`, because the exception is dropped in `submitBlocks`'s lambda and
`checkCompletion` is reached only when every block is completed. -/
theorem task_block_failure_leaves_downloading :
    (blockReturn ⟨TaskState.Downloading, [false], true⟩ 0 false).state
        = TaskState.Downloading
      ∧ (blockReturn ⟨TaskState.Downloading, [false], true⟩ 0 false).state
        ≠ TaskState.Failed
      ∧ (blockReturn ⟨TaskState.Downloading, [false], true⟩ 0 true).state
        = TaskState.Completed := by
  decide

/-! ### Metadata file (src/core/meta_file.cpp)

The JSON document structure.  nlohmann-json (the external serialisation
library) is abstracted by its contract: `dump` followed by `parse` yields the
same JSON value, so `MetaFile.save` below produces the JSON document written
to disk and `MetaFile.load` decodes one read back.  The repository's own
code — the field-by-field encoders/decoders — is embedded directly. -/

inductive Json where
  | str (s : String)
  | int (n : Int)
  | bool (b : Bool)
  | arr (elems : List Json)
  | obj (fields : List (String × Json))

def lookupField : List (String × Json) → String → Option Json
  | [], _ => none
  | (k, v) :: rest, key => if k = key then some v else lookupField rest key

def Json.at? : Json → String → Option Json
  | .obj fields, key => lookupField fields key
  | _, _ => none

def Json.asStr? : Json → Option String
  | .str s => some s
  | _ => none

def Json.asInt? : Json → Option Int
  | .int n => some n
  | _ => none

def Json.asBool? : Json → Option Bool
  | .bool b => some b
  | _ => none

def Json.asArr? : Json → Option (List Json)
  | .arr elems => some elems
  | _ => none

def blockInfoToJson (b : BlockInfo) : Json :=
  .obj [("block_id", .int b.block_id),
        ("range_start", .int b.range_start),
        ("range_end", .int b.range_end),
        ("downloaded", .int b.downloaded),
        ("completed", .bool b.completed)]

def blockInfoFromJson (j : Json) : Option BlockInfo :=
  match (j.at? "block_id").bind Json.asInt?,
        (j.at? "range_start").bind Json.asInt?,
        (j.at? "range_end").bind Json.asInt?,
        (j.at? "downloaded").bind Json.asInt?,
        (j.at? "completed").bind Json.asBool? with
  | some bid, some rs, some re, some dl, some c =>
      some { block_id := bid, range_start := rs, range_end := re,
             downloaded := dl, completed := c }
  | _, _, _, _, _ => none

structure TaskMeta where
  url : String
  file_path : String
  file_name : String
  file_size : Int
  etag : String
  last_modified : String
  max_blocks : Int
  blocks : List BlockInfo
deriving Repr, DecidableEq

def taskMetaToJson (meta : TaskMeta) : Json :=
  .obj [("url", .str meta.url),
        ("file_path", .str meta.file_path),
        ("file_name", .str meta.file_name),
        ("file_size", .int meta.file_size),
        ("etag", .str meta.etag),
        ("last_modified", .str meta.last_modified),
        ("max_blocks", .int meta.max_blocks),
        ("blocks", .arr (meta.blocks.map blockInfoToJson))]

/-- The `for (const auto& bj : j.at("blocks"))` decoding loop: the first
malformed entry aborts the whole load (the C++ throw is caught in
`MetaFile::load`, yielding `nullopt`). -/
def blocksFromJson : List Json → Option (List BlockInfo)
  | [] => some []
  | j :: rest =>
    match blockInfoFromJson j, blocksFromJson rest with
    | some b, some bs => some (b :: bs)
    | _, _ => none

def taskMetaFromJson (j : Json) : Option TaskMeta :=
  match (j.at? "url").bind Json.asStr?,
        (j.at? "file_path").bind Json.asStr?,
        (j.at? "file_name").bind Json.asStr?,
        (j.at? "file_size").bind Json.asInt?,
        (j.at? "etag").bind Json.asStr?,
        (j.at? "last_modified").bind Json.asStr?,
        (j.at? "max_blocks").bind Json.asInt?,
        (j.at? "blocks").bind Json.asArr? with
  | some u, some fp, some fn, some fs, some et, some lm, some mb, some bl =>
    match blocksFromJson bl with
    | some bs =>
      some { url := u, file_path := fp, file_name := fn, file_size := fs,
             etag := et, last_modified := lm, max_blocks := mb, blocks := bs }
    | none => none
  | _, _, _, _, _, _, _, _ => none

/-- `MetaFile::save`: serialise the record to the JSON document written at
`meta_path` (text encoding abstracted, see the section comment). -/
def MetaFile.save (meta : TaskMeta) : Json := taskMetaToJson meta

/-- `MetaFile::load`: decode the JSON document read from `meta_path`
(`none` on any missing field or type mismatch, as the C++ catch-all maps
every parse error to `nullopt`). -/
def MetaFile.load (doc : Json) : Option TaskMeta := taskMetaFromJson doc

theorem blockInfo_roundtrip (b : BlockInfo) :
    blockInfoFromJson (blockInfoToJson b) = some b := rfl

theorem blocksFromJson_map (bs : List BlockInfo) :
    blocksFromJson (bs.map blockInfoToJson) = some bs := by
  induction bs with
  | nil => rfl
  | cons b rest ih =>
    simp only [List.map_cons, blocksFromJson, blockInfo_roundtrip, ih]

/-- C7: `save` followed by `load` round-trips every `TaskMeta` record
field-for-field — all string fields (URLs, paths with spaces, parentheses or
any Unicode) and every `BlockRecord`'s `block_id`, `range_start`,
`range_end`, `downloaded` and `completed`, including an empty block list. -/
theorem metaFile_roundtrip (meta : TaskMeta) :
    MetaFile.load (MetaFile.save meta) = some meta := by
  unfold MetaFile.load MetaFile.save taskMetaFromJson taskMetaToJson
  simp [Json.at?, lookupField, Json.asStr?, Json.asInt?, Json.asArr?,
    Option.bind, blocksFromJson_map]

end SuperDownload
